import Mathlib

/-!
Verification of the `deet` debugger core (src/proj-1/deet): a shallow
embedding of `inferior.rs` and `debugger.rs`.

Modelling conventions:
* Machine words are `Nat` with explicit `2 ^ 64` bounds where u64/usize
  overflow matters; bitwise operators (`&&&`, `|||`, `^^^`, `<<<`, `>>>`)
  mirror the Rust operators; u64 bitwise NOT `!x` is `(2 ^ 64 - 1) ^^^ x`.
* The traced process's memory, as seen through `ptrace::read`/`ptrace::write`,
  is `Mem := Nat → Option Nat`: the machine word stored at an address, or
  `none` when the address is not mapped (the `nix::Error` case of the ptrace
  call).  `ptrace::write` to a word that was just successfully read succeeds.
* Rust panics (`unwrap` / `expect`) are `Except.error` with the panic text.
* The results of actually letting the child run (`ptrace::step`,
  `ptrace::cont` + `waitpid`) are external to the program text and appear as
  oracle parameters `stepO` / `contO`; likewise DWARF symbol resolution
  (`get_addr_for_line`, `get_addr_for_function`, `get_line_from_addr`,
  `get_function_from_addr`) appears as oracle functions.
-/

/-- A traced process's memory: the machine word readable at an address
(`ptrace::read`), or `none` for an unmapped address. -/
abbrev Mem := Nat → Option Nat

/-- From inferior.rs: `fn align_addr_to_word(addr: usize) -> usize
{ addr & (-(size_of::<usize>() as isize) as usize) }`.
`size_of::<usize>()` is 8, and `(-8isize) as usize` is `2 ^ 64 - 8`. -/
def align_addr_to_word (addr : Nat) : Nat :=
  addr &&& (2 ^ 64 - 8)

/-- From inferior.rs, `Inferior::write_byte`: read the containing word,
extract the original byte, splice `val` in, write the word back.  Returns
`none` where the Rust returns `Err` (the ptrace read/write failed, i.e. the
word is unmapped); otherwise the updated memory and the original byte. -/
def write_byte (mem : Mem) (addr : Nat) (val : Nat) : Option (Mem × Nat) :=
  let aligned_addr := align_addr_to_word addr
  let byte_offset := addr - aligned_addr
  match mem aligned_addr with
  | none => none
  | some word =>
    let orig_byte := (word >>> (8 * byte_offset)) &&& 0xff
    let masked_word := word &&& ((2 ^ 64 - 1) ^^^ (0xff <<< (8 * byte_offset)))
    let updated_word := masked_word ||| (val <<< (8 * byte_offset))
    some (fun a => if a = aligned_addr then some updated_word else mem a, orig_byte)

/-- Specification-side observer: the byte stored at address `a`, read out of
the machine word containing `a` (mirrors how `write_byte` extracts
`orig_byte`). -/
def byteAt (mem : Mem) (a : Nat) : Option Nat :=
  (mem (align_addr_to_word a)).map
    (fun w => (w >>> (8 * (a - align_addr_to_word a))) &&& 0xff)

/-! ### Location parsing (debugger.rs, `parse_address`)

Rust `&str` values are embedded as lists of characters (all characters the
parse functions inspect are single-byte ASCII, so Rust's byte slicing
`&addr[1..]` / `&addr[2..]` coincides with dropping characters). -/

/-- A Rust string slice, as a list of characters. -/
abbrev RStr := List Char

/-- Value of a decimal ASCII digit. -/
def decDigit? (c : Char) : Option Nat :=
  if c.isDigit then some (c.toNat - '0'.toNat) else none

/-- Value of a hexadecimal ASCII digit (both cases). -/
def hexDigit? (c : Char) : Option Nat :=
  if c.isDigit then some (c.toNat - '0'.toNat)
  else if 'a' ≤ c ∧ c ≤ 'f' then some (c.toNat - 'a'.toNat + 10)
  else if 'A' ≤ c ∧ c ≤ 'F' then some (c.toNat - 'A'.toNat + 10)
  else none

/-- Accumulate digits left to right in the given base. -/
def radixCore (digit? : Char → Option Nat) (base : Nat) : Nat → RStr → Option Nat
  | acc, [] => some acc
  | acc, c :: cs =>
    match digit? c with
    | some d => radixCore digit? base (base * acc + d) cs
    | none => none

/-- An optional leading `+` sign, as accepted by Rust's integer `from_str`
family. -/
def strip_plus (s : RStr) : RStr :=
  match s with
  | c :: r => if c = '+' then r else s
  | [] => s

/-- Modelled from Rust core's `usize::from_str` (`addr.parse::<usize>()`):
an optional leading `+`, then one or more decimal digits, and the value must
fit in 64 bits (Rust reports overflow as `Err`; a final value below `2 ^ 64`
means no intermediate value overflowed either, since the accumulator only
grows). -/
def rust_parse_usize (s : RStr) : Option Nat :=
  let t := strip_plus s
  if t = [] then none
  else
    match radixCore decDigit? 10 0 t with
    | some n => if n < 2 ^ 64 then some n else none
    | none => none

/-- Modelled from Rust core's `usize::from_str_radix(s, 16)`: an optional
leading `+`, then one or more hex digits, value below `2 ^ 64`. -/
def rust_from_str_radix16 (s : RStr) : Option Nat :=
  let t := strip_plus s
  if t = [] then none
  else
    match radixCore hexDigit? 16 0 t with
    | some n => if n < 2 ^ 64 then some n else none
    | none => none

/-- Models `addr.to_lowercase().starts_with("0x")`: the only characters whose
lowercase form begins with `0` or `x` are `0` and `x`/`X` themselves, so
checking the first two characters case-insensitively is equivalent. -/
def starts_with_0x (s : RStr) : Bool :=
  match s with
  | c1 :: c2 :: _ => c1.toLower = '0' && c2.toLower = 'x'
  | _ => false

/-- From debugger.rs, `fn parse_address`: a string that parses as a `usize`
is resolved through `get_addr_for_line` (returning that lookup's result,
`None` included); otherwise a string without a leading `*` is resolved
through `get_addr_for_function`; otherwise the text after the `*` (with an
optional case-insensitive `0x` prefix stripped) is parsed as hex.  The DWARF
lookups are the oracle parameters `la` / `fa`. -/
def parse_address (la : Nat → Option Nat) (fa : RStr → Option Nat) (addr : RStr) :
    Option Nat :=
  match rust_parse_usize addr with
  | some line_number => la line_number
  | none =>
    match addr with
    | c :: rest =>
      if c = '*' then
        let addr_without_0x := if starts_with_0x rest then rest.drop 2 else rest
        rust_from_str_radix16 addr_without_0x
      else fa addr
    | [] => fa addr

/-! ### The traced process and the debugger state (inferior.rs / debugger.rs)

A traced process is its register file (`rip`, `rbp`), its memory, and whether
the underlying OS process is still alive (an exited process can no longer be
signalled: it was reaped by the `waitpid` inside `Inferior::wait`).  Letting
the child actually run is outside the program text, so `ptrace::step` and
`ptrace::cont`+`waitpid` are oracle parameters `stepO : Inferior → Inferior`
and `contO : Inferior → Status × Inferior` (the `.unwrap()` on their
`nix::Result` is not modelled: the claims under verification say nothing
about ptrace resume failures). -/

/-- From inferior.rs, `enum Status`.  Signals are represented by their
numbers. -/
inductive Status where
  | Stopped (signal : Nat) (rip : Nat)
  | Exited (exit_code : Int)
  | Signaled (signal : Nat)

/-- From inferior.rs, `struct Inferior` together with the OS-side state the
claims depend on: registers, memory, and liveness. -/
structure Inferior where
  alive : Bool
  rip : Nat
  rbp : Nat
  mem : Mem

/-- From inferior.rs, `Inferior::kill`: `self.child.kill().expect("kill
process failed")`.  `std::process::Child::kill` is modelled from its
documented behaviour: delivering SIGKILL succeeds on a live process and
fails on a process that has already exited and been reaped (ESRCH), in which
case the `expect` panics. -/
def Inferior.kill (inf : Inferior) : Except String Inferior :=
  if inf.alive then Except.ok { inf with alive := false }
  else Except.error "kill process failed"

/-- From debugger.rs, `struct Debugger`: the fields the claims are about.
The target path, readline editor, history file and DWARF data are omitted
(the DWARF lookups appear as oracle parameters). -/
structure Debugger where
  inferior : Option Inferior
  breakpoints : List (Nat × Nat)

/-- From debugger.rs, the body of the `Some((addr, val))` arm of the Cont
branch: restore the saved byte (`write_byte(*addr, *val)`), roll `rip` back
by one (`back_rip`), single-step (`step`), re-install the trap byte
(`write_byte(*addr, 0xcc)`).  The two `expect` calls become errors. -/
def stepOverSeq (stepO : Inferior → Inferior) (inf : Inferior) (addr val : Nat) :
    Except String Inferior :=
  match write_byte inf.mem addr val with
  | none => Except.error "0xcc -> val error"
  | some (m1, _) =>
    let infB := { inf with mem := m1, rip := inf.rip - 1 }
    let infC := stepO infB
    match write_byte infC.mem addr 0xcc with
    | none => Except.error "val -> 0xcc error"
    | some (m2, _) => Except.ok { infC with mem := m2 }

/-- From debugger.rs, the Cont branch up to (not including) the resume: find
a breakpoint whose address is `rip - 1` and step over it if there is one.
`rip - 1` is `Nat` subtraction; it agrees with the Rust `usize` arithmetic
whenever `rip ≥ 1`. -/
def contPre (stepO : Inferior → Inferior) (inf : Inferior) (bps : List (Nat × Nat)) :
    Except String Inferior :=
  match bps.find? (fun p => inf.rip - 1 == p.1) with
  | some (addr, val) => stepOverSeq stepO inf addr val
  | none => Except.ok inf

/-- From debugger.rs, the tail of the Cont branch: resume
(`continue_inferior`), then drop the process handle exactly when the status
is `Exited`. -/
def resumeClassify (contO : Inferior → Status × Inferior) (st : Debugger)
    (inf' : Inferior) : Debugger :=
  match contO inf' with
  | (Status.Exited _, _) => { st with inferior := none }
  | (_, inf2) => { st with inferior := some inf2 }

/-- From debugger.rs, the `DebuggerCommand::Cont` branch: error (and leave
everything unchanged) when no process exists; otherwise step over a
just-hit breakpoint if there is one, resume, and classify. -/
def contCommand (stepO : Inferior → Inferior) (contO : Inferior → Status × Inferior)
    (st : Debugger) : Except String Debugger :=
  match st.inferior with
  | none => Except.ok st
  | some inf => (contPre stepO inf st.breakpoints).map (resumeClassify contO st)

/-- From debugger.rs, the `DebuggerCommand::Break` branch:
`parse_address(...).unwrap()` (panic when the location does not resolve);
with a live process, `write_byte(addr, 0xcc).expect("invalid address")` and
push `(addr, original byte)`; with no process, push `(addr, 0)`. -/
def breakCommand (la : Nat → Option Nat) (fa : RStr → Option Nat) (loc : RStr)
    (st : Debugger) : Except String Debugger :=
  match parse_address la fa loc with
  | none => Except.error "unwrap on None"
  | some addr =>
    match st.inferior with
    | some inf =>
      match write_byte inf.mem addr 0xcc with
      | none => Except.error "invalid address"
      | some (m, ori_ins) =>
        Except.ok { st with inferior := some { inf with mem := m },
                            breakpoints := st.breakpoints ++ [(addr, ori_ins)] }
    | none => Except.ok { st with breakpoints := st.breakpoints ++ [(addr, 0)] }

/-- From debugger.rs, `Debugger::update_breakpoint`'s loop: for each recorded
entry write the trap byte and collect `(addr, fresh original byte)`; the
`expect("invalid address")` becomes an error. -/
def update_breakpoint_go (inf : Inferior) :
    List (Nat × Nat) → List (Nat × Nat) → Except String (Inferior × List (Nat × Nat))
  | [], acc => Except.ok (inf, acc)
  | (addr, _) :: rest, acc =>
    match write_byte inf.mem addr 0xcc with
    | none => Except.error "invalid address"
    | some (m, ori_ins) =>
      update_breakpoint_go { inf with mem := m } rest (acc ++ [(addr, ori_ins)])

/-- From debugger.rs, `Debugger::update_breakpoint`: when the table is
non-empty, reinstall every entry against the (fresh) process and replace the
table with the newly captured bytes. -/
def update_breakpoint (inf : Inferior) (bps : List (Nat × Nat)) :
    Except String (Inferior × List (Nat × Nat)) :=
  if bps.isEmpty then Except.ok (inf, bps)
  else update_breakpoint_go inf bps []

/-- From debugger.rs, the `DebuggerCommand::Run` branch after the
kill-existing step: spawn (`Inferior::new`, oracle `spawnO`; `none` is the
"Error starting subprocess" path, which leaves the state as it is), install
all breakpoints, resume once, report the status. -/
def runCommandCore (spawnO : Option Inferior) (contO : Inferior → Status × Inferior)
    (st : Debugger) : Except String (Debugger × Option Status) :=
  match spawnO with
  | none => Except.ok (st, none)
  | some inf0 =>
    match update_breakpoint inf0 st.breakpoints with
    | Except.error e => Except.error e
    | Except.ok (inf1, bps1) =>
      match contO inf1 with
      | (status, inf2) =>
        Except.ok ({ st with inferior := some inf2, breakpoints := bps1 }, some status)

/-- From debugger.rs, the `DebuggerCommand::Run` branch: kill any existing
process first (a panic if it already exited), then spawn / install / resume.
Note the source keeps the new handle even when the first resume reports
`Exited`. -/
def runCommand (spawnO : Option Inferior) (contO : Inferior → Status × Inferior)
    (st : Debugger) : Except String (Debugger × Option Status) :=
  match st.inferior with
  | some old =>
    match old.kill with
    | Except.error e => Except.error e
    | Except.ok _ => runCommandCore spawnO contO { st with inferior := none }
  | none => runCommandCore spawnO contO st

/-- From debugger.rs, the `DebuggerCommand::Quit` branch: kill the process if
one exists, then end the session. -/
def quitCommand (st : Debugger) : Except String Debugger :=
  match st.inferior with
  | some inf => inf.kill.map (fun _ => st)
  | none => Except.ok st

/-- Observer: did the command complete without a panic? -/
def isOkB {α : Type} (e : Except String α) : Bool :=
  match e with
  | Except.ok _ => true
  | Except.error _ => false

/-- Observer: the breakpoint table of a command result (empty on a panic). -/
def bpsOfExc (e : Except String Debugger) : List (Nat × Nat) :=
  match e with
  | Except.ok st => st.breakpoints
  | Except.error _ => []

/-! ### Backtrace (inferior.rs, `Inferior::print_backtrace`)

The source loop resolves the instruction pointer to a line and a function
name (two `unwrap`s), reports the pair, stops when the function is `"main"`,
and otherwise continues from the word at `base_ptr + 8` (new instruction
pointer) and the word at `base_ptr` (new frame base).  The source's local
`rbp` variable is incremented (`rbp += 8`) but never read again — dead code,
not modelled.  The loop has no bound of its own; `fuel` below only makes the
definition executable, and `none` covers a failed resolution, a failed
ptrace read, and fuel running out alike. -/

/-- From inferior.rs, `Inferior::print_backtrace`'s loop, producing the
reported (function, line) pairs innermost first. -/
def print_backtrace_go (getLine getFn : Nat → Option String) (mem : Mem) :
    Nat → Nat → Nat → Option (List (String × String))
  | 0, _, _ => none
  | fuel + 1, instruction_ptr, base_ptr =>
    match getLine instruction_ptr, getFn instruction_ptr with
    | some line, some fn_name =>
      if fn_name = "main" then some [(fn_name, line)]
      else
        match mem (base_ptr + 8), mem base_ptr with
        | some ip', some bp' =>
          (print_backtrace_go getLine getFn mem fuel ip' bp').map
            (fun fs => (fn_name, line) :: fs)
        | _, _ => none
    | _, _ => none

/-- A well-formed frame-pointer chain of the given frames, starting at
`(ip, bp)`: every frame resolves, only the last frame is `main`, and each
next frame's instruction pointer / frame base are the words at `bp + 8` /
`bp`.  This is the "process stopped inside nested calls" precondition of the
backtrace claim. -/
def validChain (getLine getFn : Nat → Option String) (mem : Mem) :
    Nat → Nat → List (String × String) → Bool
  | _, _, [] => false
  | ip, bp, (fn, line) :: rest =>
    getLine ip == some line && getFn ip == some fn &&
      (if rest.isEmpty then fn == "main"
       else fn != "main" &&
         (match mem (bp + 8), mem bp with
          | some ip', some bp' => validChain getLine getFn mem ip' bp' rest
          | _, _ => false))

/-- From debugger.rs, the `DebuggerCommand::Back` branch:
`self.inferior.as_mut().unwrap()` (panic when no process exists), then
`print_backtrace(...).unwrap()` (panic when a resolution or a ptrace read
inside the loop fails; `fuel` as in `print_backtrace_go`). -/
def backCommand (getLine getFn : Nat → Option String) (fuel : Nat) (st : Debugger) :
    Except String Debugger :=
  match st.inferior with
  | none => Except.error "unwrap on None"
  | some inf =>
    match print_backtrace_go getLine getFn inf.mem fuel inf.rip inf.rbp with
    | some _ => Except.ok st
    | none => Except.error "backtrace error"

/-! ### Theorems -/

/-! ### Arithmetic facts about word alignment and byte splicing -/

theorem align_addr_to_word_eq (a : Nat) (h : a < 2 ^ 64) :
    align_addr_to_word a = 8 * (a / 8) := by
  have h1 : (2 : Nat) ^ 64 - 8 = ((2 ^ 61 - 1) <<< 3) := by decide
  have h2 : 8 * (a / 8) = (a >>> 3) <<< 3 := by
    rw [Nat.shiftLeft_eq, Nat.shiftRight_eq_div_pow]
    norm_num [Nat.mul_comm]
  rw [align_addr_to_word, h1, h2]
  apply Nat.eq_of_testBit_eq
  intro i
  simp only [Nat.testBit_and, Nat.testBit_shiftLeft, Nat.testBit_two_pow_sub_one,
    Nat.testBit_shiftRight, ge_iff_le]
  by_cases h3 : 3 ≤ i
  · by_cases h4 : i < 64
    · have h5 : 3 + (i - 3) = i := by omega
      have h6 : i - 3 < 61 := by omega
      simp [h3, h5, h6]
    · have h5 : a.testBit i = false := Nat.testBit_lt_two_pow (by
        calc a < 2 ^ 64 := h
        _ ≤ 2 ^ i := Nat.pow_le_pow_right (by norm_num) (by omega))
      have h6 : a.testBit (3 + (i - 3)) = false := by
        rw [(by omega : 3 + (i - 3) = i)]; exact h5
      simp [h5, h6]
  · simp [h3]

theorem byte_offset_eq (a : Nat) (h : a < 2 ^ 64) :
    a - align_addr_to_word a = a % 8 := by
  rw [align_addr_to_word_eq a h]; omega

theorem byte_offset_lt (a : Nat) (h : a < 2 ^ 64) :
    a - align_addr_to_word a < 8 := by
  rw [byte_offset_eq a h]; omega

theorem align_eq_align_of_same_word (a b : Nat) (ha : a < 2 ^ 64) (hb : b < 2 ^ 64)
    (hword : align_addr_to_word b = align_addr_to_word a) (hne : b ≠ a) :
    b % 8 ≠ a % 8 := by
  rw [align_addr_to_word_eq a ha, align_addr_to_word_eq b hb] at hword
  omega

/-- Splicing byte `v` at byte offset `off` puts `v` there. -/
theorem splice_get (w v off : Nat) (hoff : off < 8) (hv : v < 256) :
    (((w &&& ((2 ^ 64 - 1) ^^^ (0xff <<< (8 * off)))) ||| (v <<< (8 * off))) >>> (8 * off))
      &&& 0xff = v := by
  have hff : (0xff : Nat) = 2 ^ 8 - 1 := by decide
  apply Nat.eq_of_testBit_eq
  intro i
  rw [hff]
  simp only [Nat.testBit_and, Nat.testBit_or, Nat.testBit_xor, Nat.testBit_shiftLeft,
    Nat.testBit_shiftRight, Nat.testBit_two_pow_sub_one, ge_iff_le]
  by_cases h8 : i < 8
  · have h1 : 8 * off + i < 64 := by omega
    have h2 : 8 * off ≤ 8 * off + i := by omega
    have h3 : 8 * off + i - 8 * off = i := by omega
    simp [h1, h2, h3, h8]
  · have h1 : v.testBit i = false := Nat.testBit_lt_two_pow (by
      calc v < 256 := hv
      _ = 2 ^ 8 := by norm_num
      _ ≤ 2 ^ i := Nat.pow_le_pow_right (by norm_num) (by omega))
    simp [h8, h1]

/-- Splicing byte `v` at byte offset `off` leaves every other byte of the word
unchanged. -/
theorem splice_preserve (w v off off' : Nat) (hoff' : off' < 8) (hne : off ≠ off')
    (hv : v < 256) :
    (((w &&& ((2 ^ 64 - 1) ^^^ (0xff <<< (8 * off)))) ||| (v <<< (8 * off))) >>> (8 * off'))
      &&& 0xff = (w >>> (8 * off')) &&& 0xff := by
  have hff : (0xff : Nat) = 2 ^ 8 - 1 := by decide
  apply Nat.eq_of_testBit_eq
  intro i
  rw [hff]
  simp only [Nat.testBit_and, Nat.testBit_or, Nat.testBit_xor, Nat.testBit_shiftLeft,
    Nat.testBit_shiftRight, Nat.testBit_two_pow_sub_one, ge_iff_le]
  by_cases h8 : i < 8
  · have h1 : 8 * off' + i < 64 := by omega
    by_cases h2 : 8 * off ≤ 8 * off' + i
    · have h3 : ¬ (8 * off' + i - 8 * off < 8) := by omega
      have h4 : v.testBit (8 * off' + i - 8 * off) = false := Nat.testBit_lt_two_pow (by
        calc v < 256 := hv
        _ = 2 ^ 8 := by norm_num
        _ ≤ 2 ^ (8 * off' + i - 8 * off) := Nat.pow_le_pow_right (by norm_num) (by omega))
      simp [h1, h2, h3, h4]
    · simp [h1, h2]
  · simp [h8]

/-! ### Behaviour of `write_byte` -/

theorem write_byte_of_mapped (mem : Mem) (addr val w : Nat)
    (hmap : mem (align_addr_to_word addr) = some w) :
    write_byte mem addr val =
      some (fun a => if a = align_addr_to_word addr then
              some ((w &&& ((2 ^ 64 - 1) ^^^ (0xff <<< (8 * (addr - align_addr_to_word addr)))))
                    ||| (val <<< (8 * (addr - align_addr_to_word addr))))
            else mem a,
            (w >>> (8 * (addr - align_addr_to_word addr))) &&& 0xff) := by
  simp [write_byte, hmap]

theorem write_byte_mapped (mem : Mem) (addr val : Nat) (r : Mem × Nat)
    (h : write_byte mem addr val = some r) :
    ∃ w, mem (align_addr_to_word addr) = some w := by
  by_cases hmap : (mem (align_addr_to_word addr)).isSome
  · exact ⟨(mem (align_addr_to_word addr)).get hmap, (Option.some_get hmap).symm⟩
  · exfalso
    rw [Option.not_isSome_iff_eq_none] at hmap
    rw [write_byte] at h
    simp [hmap] at h

/-- The returned byte is the byte that was at `addr` before the write. -/
theorem write_byte_ret (mem : Mem) (addr val : Nat) (m' : Mem) (o : Nat)
    (h : write_byte mem addr val = some (m', o)) :
    byteAt mem addr = some o := by
  obtain ⟨w, hmap⟩ := write_byte_mapped mem addr val _ h
  rw [write_byte_of_mapped mem addr val w hmap] at h
  simp only [Option.some.injEq, Prod.mk.injEq] at h
  rw [byteAt, hmap, Option.map_some', h.2]

/-- Pointwise characterisation of the memory produced by a successful
`write_byte`. -/
theorem write_byte_m'_eq (mem : Mem) (addr val : Nat) (m' : Mem) (o : Nat) (w : Nat)
    (hmap : mem (align_addr_to_word addr) = some w)
    (h : write_byte mem addr val = some (m', o)) (x : Nat) :
    m' x = if x = align_addr_to_word addr then
        some ((w &&& ((2 ^ 64 - 1) ^^^ (0xff <<< (8 * (addr - align_addr_to_word addr)))))
              ||| (val <<< (8 * (addr - align_addr_to_word addr))))
      else mem x := by
  rw [write_byte_of_mapped mem addr val w hmap] at h
  simp only [Option.some.injEq, Prod.mk.injEq] at h
  rw [← h.1]

/-- After a successful `write_byte`, the byte at `addr` is `val`. -/
theorem write_byte_get (mem : Mem) (addr val : Nat) (m' : Mem) (o : Nat)
    (haddr : addr < 2 ^ 64) (hval : val < 256)
    (h : write_byte mem addr val = some (m', o)) :
    byteAt m' addr = some val := by
  obtain ⟨w, hmap⟩ := write_byte_mapped mem addr val _ h
  have hm : m' (align_addr_to_word addr) =
      some ((w &&& ((2 ^ 64 - 1) ^^^ (0xff <<< (8 * (addr - align_addr_to_word addr)))))
            ||| (val <<< (8 * (addr - align_addr_to_word addr)))) := by
    rw [write_byte_m'_eq mem addr val m' o w hmap h, if_pos rfl]
  rw [byteAt, hm, Option.map_some']
  refine congrArg some ?_
  rw [byte_offset_eq addr haddr]
  exact splice_get w val (addr % 8) (by omega) hval

/-- A successful `write_byte` touches only the machine word containing
`addr`. -/
theorem write_byte_word_only (mem : Mem) (addr val : Nat) (m' : Mem) (o : Nat)
    (h : write_byte mem addr val = some (m', o)) (x : Nat)
    (hx : x ≠ align_addr_to_word addr) :
    m' x = mem x := by
  obtain ⟨w, hmap⟩ := write_byte_mapped mem addr val _ h
  rw [write_byte_of_mapped mem addr val w hmap] at h
  simp only [Option.some.injEq, Prod.mk.injEq] at h
  rw [← h.1]
  simp [hx]

/-- A successful `write_byte` preserves every byte other than the one at
`addr`: the other bytes of the same word byte-for-byte, and all other words
untouched. -/
theorem write_byte_preserve (mem : Mem) (addr val : Nat) (m' : Mem) (o : Nat)
    (haddr : addr < 2 ^ 64) (hval : val < 256)
    (h : write_byte mem addr val = some (m', o)) (b : Nat)
    (hb : b < 2 ^ 64) (hne : b ≠ addr) :
    byteAt m' b = byteAt mem b := by
  obtain ⟨w, hmap⟩ := write_byte_mapped mem addr val _ h
  by_cases hword : align_addr_to_word b = align_addr_to_word addr
  · have hm : m' (align_addr_to_word b) =
        some ((w &&& ((2 ^ 64 - 1) ^^^ (0xff <<< (8 * (addr - align_addr_to_word addr)))))
              ||| (val <<< (8 * (addr - align_addr_to_word addr)))) := by
      rw [write_byte_m'_eq mem addr val m' o w hmap h, if_pos hword]
    have hw : mem (align_addr_to_word b) = some w := by rw [hword]; exact hmap
    rw [byteAt, byteAt, hm, hw, Option.map_some', Option.map_some']
    refine congrArg some ?_
    rw [byte_offset_eq b hb, byte_offset_eq addr haddr]
    exact splice_preserve w val (addr % 8) (b % 8) (by omega)
      (fun he => align_eq_align_of_same_word addr b haddr hb hword hne he.symm) hval
  · rw [byteAt, byteAt, write_byte_word_only mem addr val m' o h _ hword]

/-- Successful writes keep previously mapped words mapped. -/
theorem write_byte_mapped_preserve (mem : Mem) (addr val : Nat) (m' : Mem) (o : Nat)
    (h : write_byte mem addr val = some (m', o)) (x : Nat)
    (hx : (mem x).isSome) : (m' x).isSome := by
  obtain ⟨w, hmap⟩ := write_byte_mapped mem addr val _ h
  rw [write_byte_of_mapped mem addr val w hmap] at h
  simp only [Option.some.injEq, Prod.mk.injEq] at h
  rw [← h.1]
  by_cases hx' : x = align_addr_to_word addr
  · simp [hx']
  · simpa [hx'] using hx

/-- Mapped words always make `write_byte` succeed. -/
theorem write_byte_total (mem : Mem) (addr val w : Nat)
    (hmap : mem (align_addr_to_word addr) = some w) :
    ∃ m' o, write_byte mem addr val = some (m', o) :=
  ⟨_, _, write_byte_of_mapped mem addr val w hmap⟩

/-- Combined helper: a successful `write_byte` splices the byte in, preserves
everything else, and returns the previous byte. -/
theorem write_byte_splice (mem : Mem) (addr val w : Nat)
    (haddr : addr < 2 ^ 64) (hval : val < 256)
    (hmap : mem (align_addr_to_word addr) = some w) :
    ∃ m' o, write_byte mem addr val = some (m', o) ∧
      byteAt mem addr = some o ∧
      byteAt m' addr = some val ∧
      (∀ b, b < 2 ^ 64 → b ≠ addr → byteAt m' b = byteAt mem b) ∧
      (∀ x, x ≠ align_addr_to_word addr → m' x = mem x) := by
  obtain ⟨m', o, h⟩ := write_byte_total mem addr val w hmap
  exact ⟨m', o, h, write_byte_ret mem addr val m' o h,
    write_byte_get mem addr val m' o haddr hval h,
    fun b hb hne => write_byte_preserve mem addr val m' o haddr hval h b hb hne,
    fun x hx => write_byte_word_only mem addr val m' o h x hx⟩

/-- C1: `write_byte` on a live (mapped) word reads the machine word containing
`addr`, splices `val` into the byte at `addr`, writes the word back leaving
every other byte (of that word and of all other words) exactly as it was, and
returns the byte previously at `addr`. -/
theorem write_byte_spec (mem : Mem) (addr val w : Nat)
    (haddr : addr < 2 ^ 64) (hval : val < 256)
    (hmap : mem (align_addr_to_word addr) = some w) :
    ∃ m' o, write_byte mem addr val = some (m', o) ∧
      byteAt mem addr = some o ∧
      byteAt m' addr = some val ∧
      (∀ b, b < 2 ^ 64 → b ≠ addr → byteAt m' b = byteAt mem b) ∧
      (∀ x, x ≠ align_addr_to_word addr → m' x = mem x) :=
  write_byte_splice mem addr val w haddr hval hmap

/-- Witness for C1 at a concrete memory, address and value. -/
theorem write_byte_spec_witness :
    (5 : Nat) < 2 ^ 64 ∧ (0xaa : Nat) < 256 ∧
    ∃ m' o, write_byte (fun _ => some 0x0123456789abcdef) 5 0xaa = some (m', o) ∧
      byteAt (fun _ => some 0x0123456789abcdef) 5 = some o ∧
      byteAt m' 5 = some 0xaa ∧
      (∀ b, b < 2 ^ 64 → b ≠ 5 → byteAt m' b = byteAt (fun _ => some 0x0123456789abcdef) b) ∧
      (∀ x, x ≠ align_addr_to_word 5 → m' x = (fun _ => some (0x0123456789abcdef : Nat)) x) :=
  ⟨by norm_num, by norm_num,
    write_byte_spec (fun _ => some 0x0123456789abcdef) 5 0xaa 0x0123456789abcdef
      (by norm_num) (by norm_num) rfl⟩

theorem rust_parse_usize_star (r : RStr) : rust_parse_usize ('*' :: r) = none := by
  rw [rust_parse_usize]
  have h : strip_plus ('*' :: r) = '*' :: r := by
    simp [strip_plus]
  rw [h]
  simp [radixCore, decDigit?, show '*'.isDigit = false from rfl]

/-- C5 (amended): a location starting with `*` is parsed only as a hex
address (optional case-insensitive `0x` prefix), independently of the line
and function oracles; a location that parses as an integer is resolved only
through the line oracle — its result, `none` included, is returned with no
function-name fallback; any other location is resolved through the function
oracle. -/
theorem parse_address_spec (la : Nat → Option Nat) (fa : RStr → Option Nat) (s : RStr) :
    (∀ r, s = '*' :: r →
      rust_parse_usize s = none ∧
      parse_address la fa s =
        rust_from_str_radix16 (if starts_with_0x r then r.drop 2 else r) ∧
      ∀ la' fa', parse_address la' fa' s = parse_address la fa s)
    ∧ (∀ n, rust_parse_usize s = some n → parse_address la fa s = la n)
    ∧ (rust_parse_usize s = none → (∀ r, s ≠ '*' :: r) →
        parse_address la fa s = fa s) := by
  refine ⟨?_, ?_, ?_⟩
  · rintro r rfl
    refine ⟨rust_parse_usize_star r, ?_, ?_⟩
    · rw [parse_address, rust_parse_usize_star]
      simp
    · intro la' fa'
      rw [parse_address, parse_address, rust_parse_usize_star]
      simp
  · intro n hn
    rw [parse_address.eq_def, hn]
  · intro hn hstar
    rw [parse_address.eq_def, hn]
    match s with
    | [] => rfl
    | c :: rest =>
      have hc : c ≠ '*' := by
        intro hc
        exact hstar rest (by rw [hc])
      simp [hc]

/-- C5 counterexample: the location `"42"` parses as the integer 42; the
line oracle fails to resolve it, and contrary to the claim the function
oracle (which would resolve it to `0x1234`) is never consulted — the result
is `none`, not the function lookup's answer. -/
theorem parse_address_no_function_fallback :
    rust_parse_usize ['4', '2'] = some 42 ∧
    (fun _ => none : Nat → Option Nat) 42 = none ∧
    parse_address (fun _ => none) (fun _ => some 0x1234) ['4', '2'] ≠ some 0x1234 := by
  refine ⟨by decide, rfl, ?_⟩
  decide

/-- Witness for C5 at the spec's own example `*0x401020` (forced hex parse,
oracle-independent) and at a plain function name. -/
theorem parse_address_spec_witness :
    parse_address (fun _ => some 1) (fun _ => some 2)
        ['*', '0', 'x', '4', '0', '1', '0', '2', '0'] =
      rust_from_str_radix16
        (if starts_with_0x ['0', 'x', '4', '0', '1', '0', '2', '0'] then
          (['0', 'x', '4', '0', '1', '0', '2', '0'] : RStr).drop 2
        else ['0', 'x', '4', '0', '1', '0', '2', '0']) :=
  ((parse_address_spec (fun _ => some 1) (fun _ => some 2) _).1 _ rfl).2.1

theorem print_backtrace_chain (getLine getFn : Nat → Option String) (mem : Mem) :
    ∀ (frames : List (String × String)) (ip bp fuel : Nat),
      validChain getLine getFn mem ip bp frames = true →
      frames.length ≤ fuel →
      print_backtrace_go getLine getFn mem fuel ip bp = some frames := by
  intro frames
  induction frames with
  | nil => intro ip bp fuel h _; rw [validChain] at h; exact absurd h (by simp)
  | cons frame rest ih =>
    intro ip bp fuel h hfuel
    obtain ⟨fn, line⟩ := frame
    rw [validChain] at h
    simp only [Bool.and_eq_true, beq_iff_eq] at h
    obtain ⟨⟨hline, hfn⟩, htail⟩ := h
    cases fuel with
    | zero => rw [List.length_cons] at hfuel; omega
    | succ fuel =>
      simp only [print_backtrace_go, hline, hfn]
      cases rest with
      | nil =>
        simp only [List.isEmpty_nil, if_true, beq_iff_eq] at htail
        simp [htail]
      | cons r rs =>
        simp only [List.isEmpty_cons, Bool.false_eq_true, if_false, Bool.and_eq_true,
          bne_iff_ne] at htail
        obtain ⟨hmain, hlink⟩ := htail
        rw [if_neg hmain]
        cases hip : mem (bp + 8) with
        | none => rw [hip] at hlink; simp at hlink
        | some ip' =>
          cases hbp : mem bp with
          | none => rw [hip, hbp] at hlink; simp at hlink
          | some bp' =>
            rw [hip, hbp] at hlink
            have hlink' : validChain getLine getFn mem ip' bp' (r :: rs) = true := hlink
            have hlen : (r :: rs).length ≤ fuel := by
              rw [List.length_cons] at hfuel ⊢
              rw [List.length_cons] at hfuel
              omega
            show Option.map (fun fs => (fn, line) :: fs)
                (print_backtrace_go getLine getFn mem fuel ip' bp') =
              some ((fn, line) :: r :: rs)
            rw [ih ip' bp' fuel hlink' hlen]
            rfl

/-- C8: started from a stop inside nested calls of depth `D` (a well-formed
frame chain of `D + 1` frames ending at `main`), the unwinder reports
exactly those `D + 1` (function, line) pairs innermost-to-outermost, taking
each next instruction pointer from the word just above the frame base and
each next frame base from the word at the frame base, and terminates at the
`main` frame — `D + 1` iterations suffice for any fuel bound of at least
`D + 1`. -/
theorem print_backtrace_spec (getLine getFn : Nat → Option String) (mem : Mem)
    (ip bp D : Nat) (frames : List (String × String))
    (hchain : validChain getLine getFn mem ip bp frames = true)
    (hD : frames.length = D + 1) :
    ∀ fuel, D + 1 ≤ fuel →
      print_backtrace_go getLine getFn mem fuel ip bp = some frames ∧
      frames.length = D + 1 := by
  intro fuel hfuel
  exact ⟨print_backtrace_chain getLine getFn mem frames ip bp fuel hchain (by omega), hD⟩

/-- Witness for C8: a concrete two-frame chain (`foo` called from `main`,
depth `D = 1`) unwinds to exactly those two frames. -/
theorem print_backtrace_spec_witness :
    print_backtrace_go
        (fun a => if a = 100 then some "src 9" else if a = 200 then some "src 3" else none)
        (fun a => if a = 100 then some "foo" else if a = 200 then some "main" else none)
        (fun x => if x = 1008 then some 200 else if x = 1000 then some 2000 else none)
        2 100 1000 =
      some [("foo", "src 9"), ("main", "src 3")] ∧
    ([("foo", "src 9"), ("main", "src 3")] : List (String × String)).length = 1 + 1 :=
  print_backtrace_spec
    (fun a => if a = 100 then some "src 9" else if a = 200 then some "src 3" else none)
    (fun a => if a = 100 then some "foo" else if a = 200 then some "main" else none)
    (fun x => if x = 1008 then some 200 else if x = 1000 then some 2000 else none)
    100 1000 1 [("foo", "src 9"), ("main", "src 3")] (by decide) (by decide) 2 (by decide)

/-- C10: a continue command with no live process reports an error and leaves
the whole state unchanged — the breakpoint table untouched, no process
created, no panic. -/
theorem cont_no_process (stepO : Inferior → Inferior)
    (contO : Inferior → Status × Inferior) (st : Debugger)
    (h : st.inferior = none) :
    contCommand stepO contO st = Except.ok st := by
  rw [contCommand, h]

/-- Witness for C10 at a concrete no-process state with a non-empty table. -/
theorem cont_no_process_witness :
    contCommand (fun i => i) (fun i => (Status.Exited 0, i))
      ⟨none, [(16, 0x90)]⟩ = Except.ok ⟨none, [(16, 0x90)]⟩ :=
  cont_no_process (fun i => i) (fun i => (Status.Exited 0, i)) ⟨none, [(16, 0x90)]⟩ rfl

/-- C6 (amended): when the resume performed by the continue command reports
`Exited`, the controller drops the process handle and the session is in a
no-process state; the run command, by contrast, keeps the handle it just
created even when its resume reports `Exited` (see the counterexample). -/
theorem cont_exited_releases (stepO : Inferior → Inferior)
    (contO : Inferior → Status × Inferior) (st : Debugger) (inf inf' : Inferior)
    (hinf : st.inferior = some inf)
    (hpre : contPre stepO inf st.breakpoints = Except.ok inf')
    (hexit : ∃ c, (contO inf').1 = Status.Exited c) :
    contCommand stepO contO st = Except.ok { st with inferior := none } := by
  simp only [contCommand, hinf, hpre]
  obtain ⟨c, hc⟩ := hexit
  cases hco : contO inf' with
  | mk status inf2 =>
    rw [hco] at hc
    simp only at hc
    subst hc
    simp [resumeClassify, hco, Except.map]

/-- Witness for C6's amended theorem at a concrete state whose resume
exits. -/
theorem cont_exited_releases_witness :
    contCommand (fun i => i) (fun i => (Status.Exited 7, { i with alive := false }))
        ⟨some ⟨true, 17, 0, fun _ => none⟩, []⟩ =
      Except.ok ⟨none, []⟩ :=
  cont_exited_releases (fun i => i)
    (fun i => (Status.Exited 7, { i with alive := false }))
    ⟨some ⟨true, 17, 0, fun _ => none⟩, []⟩ ⟨true, 17, 0, fun _ => none⟩
    ⟨true, 17, 0, fun _ => none⟩ rfl rfl ⟨7, rfl⟩

/-- C6 counterexample: a run whose single resume reports `Exited` keeps the
process handle (`inferior` is still `some`), so the session is not in a
no-process state, contrary to the claim's "whether the resume was issued by
the run command or by the continue command". -/
theorem run_exited_keeps_handle :
    (runCommand (some ⟨true, 0, 0, fun _ => none⟩)
        (fun i => (Status.Exited 0, { i with alive := false }))
        ⟨none, []⟩).map (fun r => r.1.inferior.isSome) = Except.ok true := rfl

/-- C9 (amended): `Inferior::kill` forcibly kills a live process (and the
quit command then ends the session cleanly), but it is not idempotent: on a
process that has already exited, the underlying kill fails and the `expect`
panics — both directly and through the quit command. -/
theorem kill_spec (st : Debugger) (inf : Inferior) (hinf : st.inferior = some inf) :
    (inf.alive = true →
      inf.kill = Except.ok { inf with alive := false } ∧ quitCommand st = Except.ok st) ∧
    (inf.alive = false →
      inf.kill = Except.error "kill process failed" ∧
      quitCommand st = Except.error "kill process failed") := by
  constructor
  · intro h
    constructor
    · simp [Inferior.kill, h]
    · simp [quitCommand, hinf, Inferior.kill, h, Except.map]
  · intro h
    constructor
    · simp [Inferior.kill, h]
    · simp [quitCommand, hinf, Inferior.kill, h, Except.map]

/-- Witness for C9's amended theorem: a live process is killed cleanly. -/
theorem kill_spec_witness :
    Inferior.kill ⟨true, 17, 0, fun _ => none⟩ =
      Except.ok { (⟨true, 17, 0, fun _ => none⟩ : Inferior) with alive := false } :=
  ((kill_spec ⟨some ⟨true, 17, 0, fun _ => none⟩, []⟩ ⟨true, 17, 0, fun _ => none⟩ rfl).1
    rfl).1

/-- C9 counterexample: killing an already-exited process does not "succeed
without error" — the kill fails and the `expect` panics. -/
theorem kill_on_exited_panics :
    Inferior.kill ⟨false, 0, 0, fun _ => none⟩ = Except.error "kill process failed" := rfl

/-- C7 (amended): the failing commands do not print-and-return — they abort
(panic).  An unresolvable breakpoint location panics in the `unwrap` on
`parse_address`; a breakpoint patch at an unmapped address panics in the
`expect("invalid address")`, with no entry added to the table first; a
backtrace with no live process panics in the `unwrap` on the handle. -/
theorem failing_commands_panic (la : Nat → Option Nat) (fa : RStr → Option Nat)
    (loc : RStr) (st : Debugger) (getLine getFn : Nat → Option String)
    (fuel : Nat) (inf : Inferior) (addr : Nat) :
    (parse_address la fa loc = none →
      breakCommand la fa loc st = Except.error "unwrap on None") ∧
    (st.inferior = some inf → parse_address la fa loc = some addr →
      inf.mem (align_addr_to_word addr) = none →
      breakCommand la fa loc st = Except.error "invalid address") ∧
    (st.inferior = none →
      backCommand getLine getFn fuel st = Except.error "unwrap on None") := by
  refine ⟨?_, ?_, ?_⟩
  · intro h
    rw [breakCommand, h]
  · intro hinf hparse hmap
    have hw : write_byte inf.mem addr 0xcc = none := by
      rw [write_byte]
      simp [hmap]
    simp [breakCommand, hparse, hinf, hw]
  · intro h
    rw [backCommand, h]

/-- Witness for C7's amended theorem: an unresolvable location (`"foo"`,
with a function oracle that knows no such name) aborts the break command. -/
theorem failing_commands_panic_witness :
    breakCommand (fun _ => none) (fun _ => none) ['f', 'o', 'o']
        ⟨none, [(16, 0x90)]⟩ = Except.error "unwrap on None" :=
  (failing_commands_panic (fun _ => none) (fun _ => none) ['f', 'o', 'o']
      ⟨none, [(16, 0x90)]⟩ (fun _ => none) (fun _ => none) 0
      ⟨true, 0, 0, fun _ => none⟩ 0).1 (by decide)

/-- C7 counterexample, the spec's own scenario: `break *0xdeadbeef` against
a process with nothing mapped there does not return to the prompt — the
command aborts with the `"invalid address"` panic. -/
theorem break_unmapped_aborts :
    breakCommand (fun _ => none) (fun _ => none)
        ['*', '0', 'x', 'd', 'e', 'a', 'd', 'b', 'e', 'e', 'f']
        ⟨some ⟨true, 0, 0, fun _ => none⟩, []⟩ = Except.error "invalid address" := rfl

/-- C2: on a continue from a stop (with `rip ≥ 1`, so `Nat` and `usize`
subtraction agree), (i) the stop is classified as at a breakpoint exactly
when the reported instruction pointer minus the trap width 1 equals some
table entry's address; (ii) when entry `(a, v)` is found, the controller
first writes the entry's saved byte `v` back at `a`, rolls the instruction
pointer back by 1, single-steps that state once, re-installs the trap byte
`0xcc` at `a`, and only then resumes and classifies; (iii) otherwise it
resumes directly. -/
theorem cont_breakpoint_spec (stepO : Inferior → Inferior)
    (contO : Inferior → Status × Inferior) (st : Debugger) (inf : Inferior)
    (hinf : st.inferior = some inf) (hrip : 1 ≤ inf.rip)
    (hbps : ∀ p ∈ st.breakpoints, p.1 < 2 ^ 64 ∧ p.2 < 256) :
    ((st.breakpoints.find? (fun p => inf.rip - 1 == p.1)).isSome = true ↔
      ∃ p ∈ st.breakpoints, inf.rip = p.1 + 1) ∧
    (∀ a v, st.breakpoints.find? (fun p => inf.rip - 1 == p.1) = some (a, v) →
      inf.rip - 1 = a ∧
      ∀ w, inf.mem (align_addr_to_word a) = some w →
        ∃ m1 o1, write_byte inf.mem a v = some (m1, o1) ∧
          byteAt inf.mem a = some o1 ∧
          byteAt m1 a = some v ∧
          ∀ m2 o2,
            write_byte (stepO { inf with mem := m1, rip := inf.rip - 1 }).mem a 0xcc
              = some (m2, o2) →
            byteAt m2 a = some 0xcc ∧
            contCommand stepO contO st =
              Except.ok (resumeClassify contO st
                { stepO { inf with mem := m1, rip := inf.rip - 1 } with mem := m2 })) ∧
    (st.breakpoints.find? (fun p => inf.rip - 1 == p.1) = none →
      contCommand stepO contO st = Except.ok (resumeClassify contO st inf)) := by
  refine ⟨?_, ?_, ?_⟩
  · rw [List.find?_isSome]
    constructor
    · rintro ⟨p, hp, he⟩
      rw [beq_iff_eq] at he
      exact ⟨p, hp, by omega⟩
    · rintro ⟨p, hp, he⟩
      exact ⟨p, hp, by rw [beq_iff_eq]; omega⟩
  · intro a v hfind
    have hpred := List.find?_some hfind
    rw [beq_iff_eq] at hpred
    have hmem := List.mem_of_find?_eq_some hfind
    obtain ⟨ha, hv⟩ := hbps (a, v) hmem
    refine ⟨hpred, ?_⟩
    intro w hmap
    obtain ⟨m1, o1, hw1, hret1, hget1, _, _⟩ :=
      write_byte_splice inf.mem a v w ha hv hmap
    refine ⟨m1, o1, hw1, hret1, hget1, ?_⟩
    intro m2 o2 hw2
    constructor
    · exact write_byte_get _ a 0xcc m2 o2 ha (by norm_num) hw2
    · simp only [contCommand, hinf, contPre, hfind, stepOverSeq, hw1, hw2, Except.map]
  · intro hfind
    simp only [contCommand, hinf, contPre, hfind, Except.map]

/-- Witness for C2 at a concrete stop: one table entry at address 16 with
saved byte `0x90`, the trap installed (`0xcc` in the low byte of the word at
16), a stop reported at `rip = 17`. -/
theorem cont_breakpoint_spec_witness :
    ((⟨some ⟨true, 17, 0, fun a => if a = 16 then some 0xaabbccddeeff11cc else none⟩,
        [(16, 0x90)]⟩ : Debugger).breakpoints.find?
      (fun p => (⟨true, 17, 0, fun a => if a = 16 then some 0xaabbccddeeff11cc else
        none⟩ : Inferior).rip - 1 == p.1)).isSome = true ↔
      ∃ p ∈ [((16 : Nat), (0x90 : Nat))],
        (⟨true, 17, 0, fun a => if a = 16 then some 0xaabbccddeeff11cc else
          none⟩ : Inferior).rip = p.1 + 1 :=
  (cont_breakpoint_spec (fun i => i) (fun i => (Status.Exited 0, i))
    ⟨some ⟨true, 17, 0, fun a => if a = 16 then some 0xaabbccddeeff11cc else none⟩,
      [(16, 0x90)]⟩
    ⟨true, 17, 0, fun a => if a = 16 then some 0xaabbccddeeff11cc else none⟩
    rfl (by norm_num) (by decide)).1

/-- C3 (amended): a breakpoint request on a live process records the byte
present at the resolved address at request time.  At an address with no
prior entry this is the pre-trap original byte; requesting the same address
again records the now-installed trap byte `0xcc` in a second entry — but
the table's first-match lookup still returns the first entry, so the value
a step-over restores is the pre-trap original. -/
theorem break_twice_spec (la : Nat → Option Nat) (fa : RStr → Option Nat)
    (loc : RStr) (st : Debugger) (inf : Inferior) (addr w : Nat)
    (hinf : st.inferior = some inf)
    (hparse : parse_address la fa loc = some addr)
    (haddr : addr < 2 ^ 64)
    (hmap : inf.mem (align_addr_to_word addr) = some w)
    (hfresh : ∀ p ∈ st.breakpoints, p.1 ≠ addr) :
    ∃ o st1 st2,
      byteAt inf.mem addr = some o ∧
      breakCommand la fa loc st = Except.ok st1 ∧
      breakCommand la fa loc st1 = Except.ok st2 ∧
      st1.breakpoints = st.breakpoints ++ [(addr, o)] ∧
      st2.breakpoints = st.breakpoints ++ [(addr, o), (addr, 0xcc)] ∧
      st2.breakpoints.find? (fun p => p.1 == addr) = some (addr, o) := by
  obtain ⟨m1, o, hw1, hret1, hget1, _, _⟩ :=
    write_byte_splice inf.mem addr 0xcc w haddr (by norm_num) hmap
  have hmap1 : ∃ w1, m1 (align_addr_to_word addr) = some w1 := by
    have := write_byte_mapped_preserve inf.mem addr 0xcc m1 o hw1
      (align_addr_to_word addr) (by rw [hmap]; rfl)
    exact Option.isSome_iff_exists.mp this
  obtain ⟨w1, hmap1⟩ := hmap1
  obtain ⟨m2, o2, hw2, hret2, _, _, _⟩ :=
    write_byte_splice m1 addr 0xcc w1 haddr (by norm_num) hmap1
  have ho2 : o2 = 0xcc := by
    rw [hget1] at hret2
    exact (Option.some.injEq _ _ ▸ hret2.symm :)
  refine ⟨o,
    { st with inferior := some { inf with mem := m1 },
              breakpoints := st.breakpoints ++ [(addr, o)] },
    { st with inferior := some { inf with mem := m2 },
              breakpoints := (st.breakpoints ++ [(addr, o)]) ++ [(addr, o2)] },
    hret1, ?_, ?_, rfl, ?_, ?_⟩
  · simp [breakCommand, hparse, hinf, hw1]
  · simp [breakCommand, hparse, hw2]
  · simp [ho2, List.append_assoc]
  · rw [List.append_assoc, List.find?_append]
    have hnone : st.breakpoints.find? (fun p => p.1 == addr) = none := by
      rw [List.find?_eq_none]
      intro x hx
      simp [hfresh x hx]
    rw [hnone, Option.none_or]
    simp

/-- Witness for C3's amended theorem: a live process with byte `0x90` at
address 0, two `break *0` requests. -/
theorem break_twice_spec_witness :
    ∃ o st1 st2,
      byteAt (fun x => if x = 0 then some 0x90 else none) 0 = some o ∧
      breakCommand (fun _ => none) (fun _ => none) ['*', '0']
          ⟨some ⟨true, 0, 0, fun x => if x = 0 then some 0x90 else none⟩, []⟩ =
        Except.ok st1 ∧
      breakCommand (fun _ => none) (fun _ => none) ['*', '0'] st1 = Except.ok st2 ∧
      st1.breakpoints = [] ++ [(0, o)] ∧
      st2.breakpoints = [] ++ [(0, o), (0, 0xcc)] ∧
      st2.breakpoints.find? (fun p => p.1 == 0) = some (0, o) :=
  break_twice_spec (fun _ => none) (fun _ => none) ['*', '0']
    ⟨some ⟨true, 0, 0, fun x => if x = 0 then some 0x90 else none⟩, []⟩
    ⟨true, 0, 0, fun x => if x = 0 then some 0x90 else none⟩ 0 0x90
    rfl (by decide) (by norm_num) rfl (by simp)

/-- C3 counterexample: the pre-trap byte at address 0 is `0x90`, yet after
two `break *0` requests on the live process the table's second entry has
saved byte `0xcc` (the trap byte) — so not every entry's saved byte equals
the byte that was there before any trap was written. -/
theorem break_twice_records_trap :
    byteAt (fun x => if x = 0 then some 0x90 else none) 0 = some 0x90 ∧
    bpsOfExc ((breakCommand (fun _ => none) (fun _ => none) ['*', '0']
          ⟨some ⟨true, 0, 0, fun x => if x = 0 then some 0x90 else none⟩, []⟩).bind
        (breakCommand (fun _ => none) (fun _ => none) ['*', '0'])) =
      [(0, 0x90), (0, 0xcc)] ∧
    ¬ ∀ p ∈ [((0 : Nat), (0x90 : Nat)), (0, 0xcc)], p.2 = 0x90 :=
  ⟨rfl, by decide, by decide⟩

/-- Transport a capture relation along a pointwise-equal view of memory. -/
theorem forall2_byte_transport (memA memB : Mem) :
    ∀ (res bps : List (Nat × Nat)),
      List.Forall₂ (fun q p => q.1 = p.1 ∧ byteAt memA p.1 = some q.2) res bps →
      (∀ p ∈ bps, byteAt memB p.1 = byteAt memA p.1) →
      List.Forall₂ (fun q p => q.1 = p.1 ∧ byteAt memB p.1 = some q.2) res bps := by
  intro res bps h
  induction h with
  | nil => intro _; exact List.Forall₂.nil
  | @cons q p l₁ l₂ h1 _ ih =>
    intro hall
    refine List.Forall₂.cons ⟨h1.1, ?_⟩ (ih (fun x hx => hall x (List.mem_cons_of_mem _ hx)))
    rw [hall p (List.mem_cons_self _ _), h1.2]

/-- The `update_breakpoint` loop: processes every entry in order, installs
the trap byte everywhere, captures the byte found at each address, and (when
the addresses are distinct) each captured byte is the byte the fresh process
had at that address. -/
theorem update_breakpoint_go_spec :
    ∀ (bps : List (Nat × Nat)) (inf : Inferior) (acc : List (Nat × Nat)),
      (∀ p ∈ bps, p.1 < 2 ^ 64) →
      (∀ p ∈ bps, (inf.mem (align_addr_to_word p.1)).isSome = true) →
      ∃ inf' res,
        update_breakpoint_go inf bps acc = Except.ok (inf', acc ++ res) ∧
        res.map Prod.fst = bps.map Prod.fst ∧
        (∀ b, b < 2 ^ 64 →
          byteAt inf'.mem b = byteAt inf.mem b ∨ byteAt inf'.mem b = some 0xcc) ∧
        (∀ x, (inf.mem x).isSome = true → (inf'.mem x).isSome = true) ∧
        (∀ p ∈ bps, byteAt inf'.mem p.1 = some 0xcc) ∧
        ((bps.map Prod.fst).Nodup →
          List.Forall₂ (fun q p => q.1 = p.1 ∧ byteAt inf.mem p.1 = some q.2) res bps) := by
  intro bps
  induction bps with
  | nil =>
    intro inf acc _ _
    exact ⟨inf, [], by rw [update_breakpoint_go, List.append_nil], rfl,
      fun b _ => Or.inl rfl, fun x h => h, by simp, fun _ => List.Forall₂.nil⟩
  | cons hd rest ih =>
    intro inf acc hbound hmapped
    obtain ⟨a, pv⟩ := hd
    have ha : a < 2 ^ 64 := hbound (a, pv) (List.mem_cons_self _ _)
    obtain ⟨w, hw⟩ :=
      Option.isSome_iff_exists.mp (hmapped (a, pv) (List.mem_cons_self _ _))
    obtain ⟨m1, o, hw1, hret1, hget1, hpres1, _⟩ :=
      write_byte_splice inf.mem a 0xcc w ha (by norm_num) hw
    have hstep : update_breakpoint_go inf ((a, pv) :: rest) acc =
        update_breakpoint_go { inf with mem := m1 } rest (acc ++ [(a, o)]) := by
      rw [update_breakpoint_go, hw1]
    have hbound' : ∀ p ∈ rest, p.1 < 2 ^ 64 :=
      fun p hp => hbound p (List.mem_cons_of_mem _ hp)
    have hmapped' : ∀ p ∈ rest,
        (({ inf with mem := m1 } : Inferior).mem (align_addr_to_word p.1)).isSome = true :=
      fun p hp =>
        write_byte_mapped_preserve inf.mem a 0xcc m1 o hw1 _
          (hmapped p (List.mem_cons_of_mem _ hp))
    obtain ⟨inf', res', hgo, hfst, hbytes, hmapkeep, htrap, hnodup⟩ :=
      ih { inf with mem := m1 } (acc ++ [(a, o)]) hbound' hmapped'
    refine ⟨inf', (a, o) :: res', ?_, ?_, ?_, ?_, ?_, ?_⟩
    · rw [hstep, hgo, List.append_assoc]
      rfl
    · simp [hfst]
    · intro b hb
      rcases hbytes b hb with h | h
      · by_cases hba : b = a
        · right; rw [h, hba]; exact hget1
        · left; rw [h]; exact hpres1 b hb hba
      · right; exact h
    · intro x hx
      exact hmapkeep x (write_byte_mapped_preserve inf.mem a 0xcc m1 o hw1 x hx)
    · intro p hp
      rcases List.mem_cons.mp hp with rfl | hp'
      · rcases hbytes a ha with h | h
        · rw [h]; exact hget1
        · exact h
      · exact htrap p hp'
    · intro hnd
      rw [List.map_cons] at hnd
      have hnotin := (List.nodup_cons.mp hnd).1
      have hnd' := (List.nodup_cons.mp hnd).2
      refine List.Forall₂.cons ⟨rfl, hret1⟩ ?_
      refine forall2_byte_transport m1 inf.mem res' rest (hnodup hnd') ?_
      intro p hp
      exact (hpres1 p.1 (hbound' p hp)
        (fun he => hnotin (by rw [← he]; exact List.mem_map.mpr ⟨p, hp, rfl⟩))).symm

/-- C4 (amended): when no process exists, or the existing process is still
alive (so the kill succeeds), the run command kills any existing process
first and then behaves as a run from the no-process state: it starts the new
process, installs every breakpoint already in the table against it — writing
the trap byte and capturing a fresh original byte per entry, entries
registered before any process existed included — and only then resumes
(`contO` is applied to the fully-instrumented process) and reports the
result.  When the leftover process has already exited, the kill attempt
panics instead (see the counterexample). -/
theorem run_command_spec (contO : Inferior → Status × Inferior) (st : Debugger)
    (inf0 : Inferior)
    (haddr : ∀ p ∈ st.breakpoints, p.1 < 2 ^ 64)
    (hmap : ∀ p ∈ st.breakpoints, (inf0.mem (align_addr_to_word p.1)).isSome = true) :
    (∀ old, st.inferior = some old → old.alive = true →
      runCommand (some inf0) contO st =
        runCommand (some inf0) contO { st with inferior := none }) ∧
    (st.inferior = none →
      ∃ inf1 bps1,
        update_breakpoint inf0 st.breakpoints = Except.ok (inf1, bps1) ∧
        bps1.map Prod.fst = st.breakpoints.map Prod.fst ∧
        (∀ p ∈ st.breakpoints, byteAt inf1.mem p.1 = some 0xcc) ∧
        ((st.breakpoints.map Prod.fst).Nodup →
          List.Forall₂ (fun q p => q.1 = p.1 ∧ byteAt inf0.mem p.1 = some q.2)
            bps1 st.breakpoints) ∧
        runCommand (some inf0) contO st =
          Except.ok ({ st with inferior := some (contO inf1).2, breakpoints := bps1 },
            some (contO inf1).1)) := by
  constructor
  · intro old hold halive
    simp [runCommand, hold, Inferior.kill, halive]
  · intro hnone
    have hupd : ∃ inf1 bps1,
        update_breakpoint inf0 st.breakpoints = Except.ok (inf1, bps1) ∧
        bps1.map Prod.fst = st.breakpoints.map Prod.fst ∧
        (∀ p ∈ st.breakpoints, byteAt inf1.mem p.1 = some 0xcc) ∧
        ((st.breakpoints.map Prod.fst).Nodup →
          List.Forall₂ (fun q p => q.1 = p.1 ∧ byteAt inf0.mem p.1 = some q.2)
            bps1 st.breakpoints) := by
      by_cases hemp : st.breakpoints.isEmpty
      · rw [List.isEmpty_iff] at hemp
        refine ⟨inf0, st.breakpoints, ?_, rfl, ?_, ?_⟩
        · rw [update_breakpoint, if_pos (by rw [hemp]; rfl)]
        · rw [hemp]; intro p hp; exact absurd hp (List.not_mem_nil p)
        · rw [hemp]; intro _; exact List.Forall₂.nil
      · obtain ⟨inf1, res, hgo, hfst, _, _, htrap, hnodup⟩ :=
          update_breakpoint_go_spec st.breakpoints inf0 [] haddr hmap
        refine ⟨inf1, res, ?_, hfst, htrap, hnodup⟩
        rw [update_breakpoint, if_neg hemp, hgo]
        rfl
    obtain ⟨inf1, bps1, hupd, hfst, htrap, hcap⟩ := hupd
    refine ⟨inf1, bps1, hupd, hfst, htrap, hcap, ?_⟩
    simp only [runCommand, hnone, runCommandCore, hupd]

/-- Witness for C4 at a concrete state: one breakpoint registered before any
process exists (placeholder byte 0) gets installed, with its fresh original
byte `0x90` captured, before the single resume. -/
theorem run_command_spec_witness :
    ∃ inf1 bps1,
      update_breakpoint ⟨true, 0, 0, fun x => if x = 0 then some 0x90 else none⟩
          [(0, 0)] = Except.ok (inf1, bps1) ∧
      bps1.map Prod.fst = [((0 : Nat), (0 : Nat))].map Prod.fst ∧
      (∀ p ∈ [((0 : Nat), (0 : Nat))], byteAt inf1.mem p.1 = some 0xcc) ∧
      (([((0 : Nat), (0 : Nat))].map Prod.fst).Nodup →
        List.Forall₂
          (fun q p => q.1 = p.1 ∧
            byteAt (fun x => if x = 0 then some 0x90 else none) p.1 = some q.2)
          bps1 [((0 : Nat), (0 : Nat))]) ∧
      runCommand (some ⟨true, 0, 0, fun x => if x = 0 then some 0x90 else none⟩)
          (fun i => (Status.Stopped 5 1, i)) ⟨none, [(0, 0)]⟩ =
        Except.ok ({ (⟨none, [(0, 0)]⟩ : Debugger) with
            inferior := some ((fun (i : Inferior) => (Status.Stopped 5 1, i))
              inf1).2,
            breakpoints := bps1 },
          some ((fun (i : Inferior) => (Status.Stopped 5 1, i)) inf1).1) :=
  (run_command_spec (fun i => (Status.Stopped 5 1, i)) ⟨none, [(0, 0)]⟩
    ⟨true, 0, 0, fun x => if x = 0 then some 0x90 else none⟩
    (by decide) (by decide)).2 rfl

/-- C4 counterexample: in the state left behind by a run whose process
exited (the handle is still present but the process is dead), a new run does
not proceed to start, install and resume — it panics in the kill of the
leftover process. -/
theorem run_on_exited_handle_panics :
    runCommand (some ⟨true, 0, 0, fun _ => some 0⟩)
        (fun i => (Status.Stopped 5 0, i))
        ⟨some ⟨false, 0, 0, fun _ => none⟩, []⟩ =
      Except.error "kill process failed" := rfl
